import Mathlib

/-!
Verification of the document-conversion core of the Quotation-Generator
repository (file `convert_file_md.py`).  Strings are modelled as `List Char`;
Python exceptions are modelled with `Except` carrying the exception message;
file reads, library calls and other effects are supplied by explicit
environment records.  Each converter definition below is a shallow embedding
of the corresponding Python function.
-/

set_option autoImplicit false

namespace QuotGen

/-- Convert a Lean string literal to the `List Char` representation used
throughout this development. -/
def str (s : String) : List Char := s.data

/-- A Python exception, reduced to its message text. -/
abbrev Exc := List Char

/-- ASCII model of Python `str.isspace` (the characters relevant to this
code base). -/
def pyIsSpace (c : Char) : Bool :=
  c == ' ' || c == '\t' || c == '\n' || c == '\r' || c == '\x0b' || c == '\x0c'

/-- `leadsWith pat s` is true when `pat` is an initial segment of `s`
(Python `str.startswith`). -/
def leadsWith : List Char → List Char → Bool
  | [], _ => true
  | _ :: _, [] => false
  | a :: as, b :: bs => a == b && leadsWith as bs

/-- Python `str.endswith`. -/
def endsWithL (pat s : List Char) : Bool :=
  leadsWith pat.reverse s.reverse

/-- Python `str.strip()`: remove leading and trailing whitespace. -/
def pyStrip (s : List Char) : List Char :=
  ((s.dropWhile pyIsSpace).reverse.dropWhile pyIsSpace).reverse

/-- Helper for `findSub`: first index `≥ i` at which `sub` matches. -/
def findSubAux (sub : List Char) (i : Nat) : List Char → Option Nat
  | [] => if leadsWith sub [] then some i else none
  | c :: rest =>
    if leadsWith sub (c :: rest) then some i else findSubAux sub (i + 1) rest

/-- Python `s.find(sub)`: index of the first occurrence, `none` for `-1`. -/
def findSub (s sub : List Char) : Option Nat :=
  findSubAux sub 0 s

/-- Helper for `rfindFrom`: greatest index `≥ i` at which `sub` matches. -/
def rfindAux (sub : List Char) (i : Nat) : List Char → Option Nat
  | [] => if leadsWith sub [] then some i else none
  | c :: rest =>
    match rfindAux sub (i + 1) rest with
    | some j => some j
    | none => if leadsWith sub (c :: rest) then some i else none

/-- Python `s.rfind(sub, start)`: greatest index `≥ start` of an occurrence
of `sub` lying entirely inside `s[start:]`, `none` for `-1`. -/
def rfindFrom (s sub : List Char) (start : Nat) : Option Nat :=
  rfindAux sub start (s.drop start)

/-- Python slice `s[a:b]` (for `a ≤ b`; empty otherwise, as in Python). -/
def slice (s : List Char) (a b : Nat) : List Char :=
  (s.drop a).take (b - a)

/-- `containsSub sub s`: does `sub` occur in `s` (Python `sub in s`). -/
def containsSub (sub s : List Char) : Bool :=
  (findSub s sub).isSome

/-- Helper for `splitNl`. -/
def splitNlAux (acc : List Char) : List Char → List (List Char)
  | [] => [acc.reverse]
  | c :: rest =>
    if c = '\n' then acc.reverse :: splitNlAux [] rest
    else splitNlAux (c :: acc) rest

/-- Python `s.split('\n')`. -/
def splitNl (s : List Char) : List (List Char) :=
  splitNlAux [] s

/-- Python `sep.join(parts)`: concatenation with a separator between
elements. -/
def joinSep (sep : List Char) : List (List Char) → List Char
  | [] => []
  | [x] => x
  | x :: y :: xs => x ++ sep ++ joinSep sep (y :: xs)

/-! ### The Markup Normalizer (fence stripping inside `convert_md_to_pdf`,
source lines 299-349). -/

/-- The bare code-fence marker. -/
def fenceMark : List Char := str "```"

/-- The code-fence marker with the `markdown` language tag. -/
def mdFence : List Char := str "```markdown"

/-- One iteration of the `for marker in block_start_variants` loop: accept a
marker whose first occurrence is at position 0 or preceded by a whitespace
character, returning the marker and the index just after it. -/
def tryMarker (s m : List Char) : Option (List Char × Nat) :=
  match findSub s m with
  | some i =>
    if i == 0 || (match s.get? (i - 1) with
                  | some c => pyIsSpace c
                  | none => false) then
      some (m, i + m.length)
    else none
  | none => none

/-- The marker-selection loop over `["```markdown", "```"]`. -/
def markerSel (s : List Char) : Option (List Char × Nat) :=
  match tryMarker s mdFence with
  | some r => some r
  | none => tryMarker s fenceMark

/-- Strip the first line, and the last line when it strips to a bare fence
(the `lines.pop` fallback in the source). -/
def popFenceLines (stripped : List Char) : List Char :=
  let lines := (splitNl stripped).drop 1
  let lines2 :=
    match lines.getLast? with
    | some l => if pyStrip l == fenceMark then lines.dropLast else lines
    | none => lines
  joinSep ['\n'] lines2

/-- The fence-stripping step of `convert_md_to_pdf` (the Markup Normalizer):
locate an opening fence marker, then the last closing fence after it, and
extract the trimmed substring in between; otherwise fall back to stripping
the first and last line, or return the input unchanged. -/
def fenceClean (s : List Char) : List Char :=
  match markerSel s with
  | some (m, k) =>
    match rfindFrom s fenceMark k with
    | some e => pyStrip (slice s k e)
    | none =>
      let stripped := pyStrip s
      if leadsWith m stripped && endsWithL fenceMark stripped then
        popFenceLines stripped
      else s
  | none =>
    let stripped := pyStrip s
    if leadsWith fenceMark stripped && endsWithL fenceMark stripped then
      popFenceLines stripped
    else s

/-! ### DOCX → Markdown (`convert_docx_to_md`, source lines 72-174). -/

/-- A run of a DOCX paragraph: its text, the bold/italic flags, and whether
its XML element is a `CT_Drawing` (an inline image). -/
structure DocxRun where
  text : List Char
  bold : Bool
  italic : Bool
  isDrawing : Bool
deriving DecidableEq

/-- A top-level block of a DOCX document body: a paragraph (with its style
name and runs, in document order) or a table (rows of cell texts). -/
inductive DocxBlock where
  | para (style : List Char) (runs : List DocxRun)
  | table (rows : List (List (List Char)))
deriving DecidableEq

/-- `para.text` in python-docx: concatenation of the run texts. -/
def paraText (runs : List DocxRun) : List Char :=
  (runs.map DocxRun.text).flatten

/-- The literal two-character sequence `\` `n` that `convert_docx_to_md`
appends as a paragraph/line-break marker (the Python string `'\\n'`). -/
def nlMark : List Char := ['\\', 'n']

/-- Python `str.lower()` (ASCII model). -/
def pyLower (s : List Char) : List Char := s.map Char.toLower

/-- `int(style[-1])` when the last character is an ASCII digit
(`ValueError` otherwise, modelled as `none`). -/
def lastDigit (s : List Char) : Option Nat :=
  match s.getLast? with
  | some c => if c.isDigit then some (c.toNat - 48) else none
  | none => none

/-- Markdown wrapping of one run (`***both***`, `**bold**`, `*italic*`). -/
def runMd (r : DocxRun) : List Char :=
  if r.bold && r.italic then str "***" ++ r.text ++ str "***"
  else if r.bold then str "**" ++ r.text ++ str "**"
  else if r.italic then str "*" ++ r.text ++ str "*"
  else r.text

/-- One pipe-table row line: `| c1 | c2 | ... |` (without the break marker). -/
def mkRow (cells : List (List Char)) : List Char :=
  str "| " ++ joinSep (str " | ") cells ++ str " |"

/-- The Markdown emitted for one table block: header row, `---` separator
row sized from the header cells, the remaining rows, and a closing break
marker; empty tables emit nothing (`continue`). -/
def tableMd (rows : List (List (List Char))) : List Char :=
  match rows with
  | [] => []
  | r0 :: rs =>
    (mkRow (r0.map pyStrip) ++ nlMark)
      ++ (mkRow (List.replicate r0.length (str "---")) ++ nlMark)
      ++ (rs.map (fun r => mkRow (r.map pyStrip) ++ nlMark)).flatten
      ++ nlMark

/-- The Markdown emitted for one paragraph block, following the source:
blank paragraphs emit one break marker unless they contain a drawing run;
`Heading`-styled paragraphs emit hashes from the trailing digit of the style
name (with the `ValueError` fallback chain); other paragraphs emit the
concatenated run markup. -/
def paraMd (style : List Char) (runs : List DocxRun) : List Char :=
  let text := paraText runs
  if (pyStrip text).isEmpty then
    if runs.any DocxRun.isDrawing then [] else nlMark
  else if leadsWith (str "Heading") style then
    let lvl :=
      match lastDigit style with
      | some d => d
      | none =>
        if pyLower style == str "title" then 1
        else if pyLower style == str "subtitle" then 2
        else 1
    if lvl > 0 then
      List.replicate lvl '#' ++ ' ' :: pyStrip text ++ nlMark ++ nlMark
    else
      str "## " ++ pyStrip text ++ nlMark ++ nlMark
  else
    (runs.map runMd).flatten ++ nlMark ++ nlMark

/-- Markdown emitted for one DOCX body block. -/
def docxBlockMd : DocxBlock → List Char
  | .para style runs => paraMd style runs
  | .table rows => tableMd rows

/-- Replacement text for a run of `n` consecutive break markers under
`re.sub(r'(\\n){3,}', '\\n\\n', ...)`: runs of three or more are replaced by
the template `\\n\\n`, which the `re` replacement parser interprets as two
actual newline characters; shorter runs are left as the literal markers. -/
def emitRun (n : Nat) : List Char :=
  if 3 ≤ n then ['\n', '\n'] else (List.replicate n nlMark).flatten

/-- Scanner for `re.sub(r'(\\n){3,}', '\\n\\n', s)`: `pending` counts break
markers read but not yet emitted. -/
def collapseAux (pending : Nat) : List Char → List Char
  | [] => emitRun pending
  | [c] => emitRun pending ++ [c]
  | c :: d :: rest =>
    if c = '\\' ∧ d = 'n' then collapseAux (pending + 1) rest
    else emitRun pending ++ c :: collapseAux 0 (d :: rest)

/-- The newline-collapsing regex substitution of `convert_docx_to_md`. -/
def collapseMarkers (s : List Char) : List Char :=
  collapseAux 0 s

/-- `convert_docx_to_md` on a successfully parsed document body. -/
def docxMd (blocks : List DocxBlock) : List Char :=
  pyStrip (collapseMarkers ((blocks.map docxBlockMd).flatten))

/-- `convert_docx_to_md`: the environment is the outcome of
`docx.Document(docx_path)`; every internal failure is caught and converted
to an error string, so the result is always `Except.ok`. -/
def convert_docx_to_md (env : Except Exc (List DocxBlock)) :
    Except Exc (List Char) :=
  match env with
  | .ok blocks => .ok (docxMd blocks)
  | .error e => .ok (str "Error converting DOCX to Markdown: " ++ e)

/-- Helper for splitting a string at the literal break markers (used to
state the pipe-table claims). -/
def splitMarkerAux (acc : List Char) : List Char → List (List Char)
  | [] => [acc.reverse]
  | [c] => [(c :: acc).reverse]
  | c :: d :: rest =>
    if c = '\\' ∧ d = 'n' then acc.reverse :: splitMarkerAux [] rest
    else splitMarkerAux (c :: acc) (d :: rest)

/-- Split a string at every occurrence of the literal two-character break
marker `\` `n`. -/
def splitMarker (s : List Char) : List (List Char) :=
  splitMarkerAux [] s

/-- Payload of an always-`ok` converter result. -/
def getOk : Except Exc (List Char) → List Char
  | .ok s => s
  | .error _ => []

/-! ### DOCX → PDF (`convert_docx_to_pdf`, source lines 177-199). -/

/-- The substring tested against the exception text to recognise a missing
external document engine. -/
def engineMissingPat : List Char := str "Neither MS Word nor LibreOffice found"

/-- `convert_docx_to_pdf`: the environment is the outcome of the
`docx_to_pdf_converter` call.  Returns the Python return value paired with
the list of printed lines; the `try`/`except` makes the result always
`Except.ok`. -/
def convert_docx_to_pdf (env : Except Exc Unit) :
    Except Exc (Bool × List (List Char)) :=
  match env with
  | .ok _ => .ok (true, [])
  | .error e =>
    if containsSub engineMissingPat e then
      .ok (false, [str "Error converting DOCX to PDF: Microsoft Word or LibreOffice not found. Please install one and ensure it is in your PATH."])
    else
      .ok (false, [str "Error converting DOCX to PDF: " ++ e])

/-! ### PDF → Markdown (`convert_pdf_to_md`, source lines 18-69). -/

/-- Decimal digits of a number, as characters. -/
def natToChars (n : Nat) : List Char := Nat.toDigits 10 n

/-- One page of an opened PDF: the extracted text and, per embedded image,
the combined outcome of `extract_image` / `Image.open` / `image.save`. -/
structure PdfPage where
  text : List Char
  images : List (Except Exc Unit)

/-- Environment of `convert_pdf_to_md`: the outcome of `fitz.open`. -/
structure PdfEnv where
  openResult : Except Exc (List PdfPage)

/-- Side-file name `image_p{page}_{index}.png` (1-based numbers). -/
def imgName (page idx : Nat) : List Char :=
  str "image_p" ++ natToChars page ++ ['_'] ++ natToChars idx ++ str ".png"

/-- Markdown image reference
`![Image {idx} from page {page}]({image_p..png})` with its trailing blank
separator. -/
def imgRef (page idx : Nat) : List Char :=
  str "![Image " ++ natToChars idx ++ str " from page " ++ natToChars page
    ++ str "](" ++ imgName page idx ++ str ")\n\n"

/-- The image loop of one PDF page (`n`, `i` are 0-based counters): returns
the Markdown fragments (or the first exception) and the list of side-file
names written before any failure. -/
def pdfImagesMd (n : Nat) (i : Nat) :
    List (Except Exc Unit) → Except Exc (List Char) × List (List Char)
  | [] => (.ok [], [])
  | r :: rs =>
    match r with
    | .error e => (.error e, [])
    | .ok _ =>
      let fname := imgName (n + 1) (i + 1)
      let rest := pdfImagesMd n (i + 1) rs
      (rest.1.map (fun t => imgRef (n + 1) (i + 1) ++ t), fname :: rest.2)

/-- The page loop of `convert_pdf_to_md` (`n` is the 0-based page number). -/
def pdfPagesMd (n : Nat) :
    List PdfPage → Except Exc (List Char) × List (List Char)
  | [] => (.ok [], [])
  | p :: ps =>
    let imgs := pdfImagesMd n 0 p.images
    match imgs.1 with
    | .error e => (.error e, imgs.2)
    | .ok imgMd =>
      let rest := pdfPagesMd (n + 1) ps
      (rest.1.map (fun t =>
          str "## Page " ++ natToChars (n + 1) ++ ['\n']
            ++ p.text ++ str "\n\n" ++ imgMd ++ t),
       imgs.2 ++ rest.2)

/-- `convert_pdf_to_md`: returns the Markdown (or, via the `except` clause,
an error string — always `Except.ok`) together with the image side-files
written. -/
def convert_pdf_to_md (env : PdfEnv) :
    Except Exc (List Char) × List (List Char) :=
  match env.openResult with
  | .error e => (.ok (str "Error converting PDF to Markdown: " ++ e), [])
  | .ok pages =>
    let body := pdfPagesMd 0 pages
    match body.1 with
    | .ok md => (.ok md, body.2)
    | .error e => (.ok (str "Error converting PDF to Markdown: " ++ e), body.2)

/-! ### Markdown → PDF (`convert_md_to_pdf`, source lines 283-428). -/

/-- Return value of `page.insert_htmlbox`: an integer status code or a
rectangle of unfitted content (`is_empty` true when everything fitted). -/
inductive FitzInsert where
  | icode (i : Int)
  | irect (isEmpty : Bool)
deriving DecidableEq

/-- Environment of `convert_md_to_pdf`: outcome of the file read, the
`markdown.markdown` library call, the `insert_htmlbox` call and `doc.save`. -/
structure MdPdfEnv where
  readResult : Except Exc (List Char)
  mdToHtml : List Char → List Char
  insertResult : Except Exc FitzInsert
  saveResult : Except Exc Unit

/-- The letterhead spacer prepended to the HTML snippet. -/
def spacerHtml : List Char := str "<div style=\"height: 3cm;\"></div>"

/-- The warning lines printed for each `insert_htmlbox` outcome
(source lines 409-417). -/
def warningsFor : FitzInsert → List (List Char)
  | .icode i =>
    if i == -1 then [str "Warning: fitz.insert_htmlbox general error (code -1)."]
    else if i == -2 then [str "Warning: fitz.insert_htmlbox invalid HTML/CSS (code -2)."]
    else []
  | .irect isEmpty =>
    if isEmpty then []
    else [str "Warning: fitz.insert_htmlbox indicates content overflow."]

/-- The debug lines printed before the layout call (the cleaned Markdown and
the HTML snippet are echoed between dashed delimiter lines). -/
def mdPdfDbg (cleaned htmlWithSpacer : List Char) : List (List Char) :=
  [str "--- Cleaned MD Content for Markdown Parser ---",
   cleaned,
   str "---------------------------------------------",
   str "--- Generated HTML Snippet for PDF Conversion ---",
   htmlWithSpacer,
   str "--------------------------------------------------"]

/-- `convert_md_to_pdf`: reads the Markdown, applies the Markup Normalizer
(`fenceClean`), renders HTML, lays it out via `insert_htmlbox`, prints a
warning per non-fit outcome, saves, and returns `True`; every exception is
caught and turned into `False` plus a printed error line — the result is
always `Except.ok (return value, printed lines)`. -/
def convert_md_to_pdf (env : MdPdfEnv) :
    Except Exc (Bool × List (List Char)) :=
  match env.readResult with
  | .error e => .ok (false, [str "Error converting Markdown to PDF: " ++ e])
  | .ok mdContent =>
    let cleaned := fenceClean mdContent
    let htmlWithSpacer := spacerHtml ++ env.mdToHtml cleaned
    let dbg := mdPdfDbg cleaned htmlWithSpacer
    match env.insertResult with
    | .error e => .ok (false, dbg ++ [str "Error converting Markdown to PDF: " ++ e])
    | .ok rv =>
      match env.saveResult with
      | .error e =>
        .ok (false, dbg ++ warningsFor rv
              ++ [str "Error converting Markdown to PDF: " ++ e])
      | .ok _ => .ok (true, dbg ++ warningsFor rv)

/-- The Python return value (`True`/`False`) of a converter modelled with a
print log, when no exception escaped. -/
def returnedBool : Except Exc (Bool × List (List Char)) → Option Bool
  | .ok (b, _) => some b
  | .error _ => none

/-! ### Markdown → TXT (`convert_md_to_txt`, source lines 471-506): five
`re.sub` substitutions applied in order. -/

/-- Scanner for `re.sub(r'#+\s+', '', s)` (fuel-indexed; every step
consumes at least one input character, so fuel `s.length` is exact): a
maximal run of `#` followed by at least one whitespace character is deleted
(hashes with no following whitespace are kept). -/
def sub1Fuel : Nat → List Char → List Char
  | 0, s => s
  | _ + 1, [] => []
  | fuel + 1, c :: rest =>
    if c = '#' then
      let after := rest.dropWhile (fun x => x == '#')
      if (after.takeWhile pyIsSpace).isEmpty then c :: sub1Fuel fuel rest
      else sub1Fuel fuel (after.dropWhile pyIsSpace)
    else c :: sub1Fuel fuel rest

/-- `re.sub(r'#+\s+', '', s)`. -/
def sub1 (s : List Char) : List Char := sub1Fuel s.length s

/-- Regex word character `\w` (ASCII model): letters, digits, underscore. -/
def isWordChar (c : Char) : Bool := c.isAlphanum || c == '_'

/-- Word-boundary test against the character before the scan position. -/
def nonWordB : Option Char → Bool
  | none => true
  | some c => !isWordChar c

/-- Word-boundary test against the character after the match. -/
def headNonWord : List Char → Bool
  | [] => true
  | c :: _ => !isWordChar c

/-- `re.sub(r'\*\*|\*|__|\b_\b', '', s)`: every `**`, `*` and `__` is
deleted; a single `_` is deleted only between word boundaries.  `prev` is
the input character just before the scan position (for `\b`). -/
def sub2 (prev : Option Char) : List Char → List Char
  | [] => []
  | [c] =>
    if c = '*' then []
    else if c = '_' then
      if nonWordB prev && headNonWord [] then [] else ['_']
    else [c]
  | c :: d :: rest =>
    if c = '*' then
      if d = '*' then sub2 (some '*') rest else sub2 (some '*') (d :: rest)
    else if c = '_' then
      if d = '_' then sub2 (some '_') rest
      else if nonWordB prev && headNonWord (d :: rest) then
        sub2 (some '_') (d :: rest)
      else '_' :: sub2 (some '_') (d :: rest)
    else c :: sub2 (some c) (d :: rest)

/-- Deterministic matcher for `\[([^\]]+)\]\([^)]+\)` at the head of the
input: returns the captured label and the input after the match. -/
def matchLink : List Char → Option (List Char × List Char)
  | '[' :: t =>
    let label := t.takeWhile (fun c => c != ']')
    if label.isEmpty then none else
    match t.dropWhile (fun c => c != ']') with
    | ']' :: '(' :: u =>
      let url := u.takeWhile (fun c => c != ')')
      if url.isEmpty then none else
      match u.dropWhile (fun c => c != ')') with
      | ')' :: v => some (label, v)
      | _ => none
    | _ => none
  | _ => none

/-- Scanner for `re.sub(r'\[([^\]]+)\]\([^)]+\)', r'\1', s)` (fuel-indexed;
a match consumes at least four characters, a non-match advances by one, so
fuel `s.length` is exact): each complete `[label](url)` is replaced by its
label. -/
def sub3Fuel : Nat → List Char → List Char
  | 0, s => s
  | _ + 1, [] => []
  | fuel + 1, c :: rest =>
    match matchLink (c :: rest) with
    | some p => p.1 ++ sub3Fuel fuel p.2
    | none => c :: sub3Fuel fuel rest

/-- `re.sub(r'\[([^\]]+)\]\([^)]+\)', r'\1', s)`. -/
def sub3 (s : List Char) : List Char := sub3Fuel s.length s

/-- Matcher for `!\[([^\]]+)\]\([^)]+\)` at the head of the input. -/
def matchImg : List Char → Option (List Char)
  | '!' :: t =>
    match matchLink t with
    | some p => some p.2
    | none => none
  | _ => none

/-- Scanner for `re.sub(r'!\[([^\]]+)\]\([^)]+\)', '', s)` (fuel-indexed):
complete image references are deleted. -/
def sub4Fuel : Nat → List Char → List Char
  | 0, s => s
  | _ + 1, [] => []
  | fuel + 1, c :: rest =>
    match matchImg (c :: rest) with
    | some v => sub4Fuel fuel v
    | none => c :: sub4Fuel fuel rest

/-- `re.sub(r'!\[([^\]]+)\]\([^)]+\)', '', s)`. -/
def sub4 (s : List Char) : List Char := sub4Fuel s.length s

/-- Matcher for ```` ```[^`]*``` ```` at the head of the input. -/
def matchFence3 : List Char → Option (List Char)
  | '`' :: '`' :: '`' :: t =>
    match t.dropWhile (fun c => c != '`') with
    | '`' :: '`' :: '`' :: v => some v
    | _ => none
  | _ => none

/-- Scanner for `re.sub(r'```[^`]*```', '', s)` (fuel-indexed): fenced code
blocks with no inner backtick are deleted. -/
def sub5Fuel : Nat → List Char → List Char
  | 0, s => s
  | _ + 1, [] => []
  | fuel + 1, c :: rest =>
    match matchFence3 (c :: rest) with
    | some v => sub5Fuel fuel v
    | none => c :: sub5Fuel fuel rest

/-- `re.sub(r'```[^`]*```', '', s)`. -/
def sub5 (s : List Char) : List Char := sub5Fuel s.length s

/-- The full text transformation of `convert_md_to_txt` (headers, emphasis,
links, images, code blocks — in source order). -/
def mdToTxtText (s : List Char) : List Char :=
  sub5 (sub4 (sub3 (sub2 none (sub1 s))))

/-- Environment of `convert_md_to_txt`: outcomes of the read and the write. -/
structure TxtEnv where
  readResult : Except Exc (List Char)
  writeResult : Except Exc Unit

/-- `convert_md_to_txt`: returns the Python return value (always
`Except.ok` thanks to the `try`/`except`) and the text written to the
output file. -/
def convert_md_to_txt (env : TxtEnv) : Except Exc Bool × List (List Char) :=
  match env.readResult with
  | .error _ => (.ok false, [])
  | .ok s =>
    match env.writeResult with
    | .error _ => (.ok false, [])
    | .ok _ => (.ok true, [mdToTxtText s])

/-! ### TXT → Markdown (`convert_txt_to_md`, source lines 202-238). -/

/-- ASCII model of Python `str.isupper`: at least one letter, and every
letter uppercase. -/
def pyIsUpper (s : List Char) : Bool :=
  s.any (fun c => c.isAlpha) && s.all (fun c => !c.isAlpha || c.isUpper)

/-- `re.match(r'^\d+[\.\)]', s)`: one or more leading digits followed by
`.` or `)`. -/
def numBulletMatch (s : List Char) : Bool :=
  !(s.takeWhile Char.isDigit).isEmpty &&
    (match s.dropWhile Char.isDigit with
     | c :: _ => c == '.' || c == ')'
     | [] => false)

/-- The per-line heuristic of `convert_txt_to_md`: blank lines keep a bare
newline; all-caps lines or lines ending in a colon become `##` headings;
numbered/bulleted and plain lines are kept with a newline. -/
def txtLineMd (line : List Char) : List Char :=
  if (pyStrip line).isEmpty then ['\n']
  else if pyIsUpper line || endsWithL [':'] (pyStrip line) then
    str "## " ++ line ++ str "\n\n"
  else if numBulletMatch (pyStrip line) || leadsWith (str "•") (pyStrip line)
  then line ++ ['\n']
  else line ++ ['\n']

/-- The text transformation of `convert_txt_to_md`. -/
def txtToMdText (content : List Char) : List Char :=
  ((splitNl content).map txtLineMd).flatten

/-- `convert_txt_to_md`: the environment is the outcome of reading the TXT
file; the `try`/`except` makes the result always `Except.ok`. -/
def convert_txt_to_md (env : Except Exc (List Char)) : Except Exc (List Char) :=
  match env with
  | .ok content => .ok (txtToMdText content)
  | .error e => .ok (str "Error converting TXT to Markdown: " ++ e)

/-! ### Markdown → DOCX (`convert_md_to_docx`, source lines 431-468). -/

/-- Scanner for `re.sub(r'<.*?>', '', line)` (fuel-indexed): each `<`
followed (anywhere later in the line) by a `>` is deleted together with
everything up to that first `>`; a `<` with no later `>` is kept. -/
def stripTagsFuel : Nat → List Char → List Char
  | 0, s => s
  | _ + 1, [] => []
  | f + 1, c :: rest =>
    if c = '<' then
      match rest.dropWhile (fun x => x != '>') with
      | '>' :: v => stripTagsFuel f v
      | _ => c :: stripTagsFuel f rest
    else c :: stripTagsFuel f rest

/-- `re.sub(r'<.*?>', '', line)`. -/
def stripTags (s : List Char) : List Char := stripTagsFuel s.length s

/-- Environment of `convert_md_to_docx`: outcomes of the file read, the
`markdown.markdown` call and `doc.save`. -/
structure MdDocxEnv where
  readResult : Except Exc (List Char)
  mdToHtml : List Char → List Char
  saveResult : Except Exc Unit

/-- The paragraphs `convert_md_to_docx` adds to the Word document: each
HTML line with tags stripped and trimmed, empty lines skipped. -/
def mdDocxParagraphs (html : List Char) : List (List Char) :=
  ((splitNl html).map (fun line => pyStrip (stripTags line))).filter
    (fun l => !l.isEmpty)

/-- `convert_md_to_docx`: returns the Python return value (always
`Except.ok` thanks to the `try`/`except`) and the paragraphs written to
the saved document. -/
def convert_md_to_docx (env : MdDocxEnv) :
    Except Exc Bool × List (List Char) :=
  match env.readResult with
  | .error _ => (.ok false, [])
  | .ok md =>
    match env.saveResult with
    | .error _ => (.ok false, [])
    | .ok _ => (.ok true, mdDocxParagraphs (env.mdToHtml md))

/-! ### Claim-side definitions and concrete instances -/

/-- Heading level actually realised by the code for a `Heading`-prefixed
style name: trailing digit `d ≥ 1` gives level `d`; trailing digit `0`
falls into the `##` fallback (level 2); a non-digit last character gives
level 1. -/
def amendedHeadingLevel (style : List Char) : Nat :=
  match lastDigit style with
  | some 0 => 2
  | some d => d
  | none => 1

/-- A block of emitted lines, each followed by one break marker, with one
extra closing break marker — the concatenation shape shared by the heading,
body and table emissions of `convert_docx_to_md`. -/
def docJoin (lines : List (List Char)) : List Char :=
  (lines.map (fun l => l ++ nlMark)).flatten ++ nlMark

/-- The print log of a converter result. -/
def printsOf : Except Exc (Bool × List (List Char)) → List (List Char)
  | .ok (_, ps) => ps
  | .error _ => []

/-- The image references of one page as the specification describes them:
`cnt` references with consecutive 1-based indices starting at `i`. -/
def imgRefsBlock (page i : Nat) : Nat → List Char
  | 0 => []
  | c + 1 => imgRef page i ++ imgRefsBlock page (i + 1) c

/-- The image side-file names of one page, 1-based from `i`. -/
def imgFilesBlock (page i : Nat) : Nat → List (List Char)
  | 0 => []
  | c + 1 => imgName page i :: imgFilesBlock page (i + 1) c

/-- The Markdown that the specification promises for a list of PDF pages
(`n` = number of pages already emitted): per page, a page-number heading,
the page text, a blank separator, then one image reference per embedded
image. -/
def pdfExpectedMd (n : Nat) : List PdfPage → List Char
  | [] => []
  | p :: ps =>
    str "## Page " ++ natToChars (n + 1) ++ ['\n'] ++ p.text ++ str "\n\n"
      ++ imgRefsBlock (n + 1) 1 p.images.length ++ pdfExpectedMd (n + 1) ps

/-- The image side-files the specification promises for a list of pages. -/
def pdfExpectedFiles (n : Nat) : List PdfPage → List (List Char)
  | [] => []
  | p :: ps => imgFilesBlock (n + 1) 1 p.images.length ++ pdfExpectedFiles (n + 1) ps

/-- A stub `markdown.markdown` collaborator for concrete layout runs. -/
def mdHtmlStub : List Char → List Char := fun _ => []

/-- Layout environment whose `insert_htmlbox` call reports that all content
fitted (an empty overflow rectangle). -/
def envFit : MdPdfEnv :=
  { readResult := .ok (str "x"), mdToHtml := mdHtmlStub,
    insertResult := .ok (.irect true), saveResult := .ok () }

/-- Layout environment whose `insert_htmlbox` call reports overflow (a
non-empty overflow rectangle). -/
def envOvf : MdPdfEnv :=
  { readResult := .ok (str "x"), mdToHtml := mdHtmlStub,
    insertResult := .ok (.irect false), saveResult := .ok () }

/-- Layout environment whose `insert_htmlbox` call reports structurally
invalid HTML/CSS (status code `-2`). -/
def envBad : MdPdfEnv :=
  { readResult := .ok (str "x"), mdToHtml := mdHtmlStub,
    insertResult := .ok (.icode (-2)), saveResult := .ok () }

/-- The exception text raised by `docx2pdf` when no document engine is
installed. -/
def engineErr : Exc := str "Neither MS Word nor LibreOffice found"

/-- An arbitrary other conversion exception text. -/
def otherErr : Exc := str "corrupt document"

/-- PDF environment with one page of text `T` carrying one image. -/
def envPdfEx : PdfEnv :=
  { openResult := .ok [{ text := str "T", images := [.ok ()] }] }

/-- Three-paragraph DOCX body (text, blank, text) whose emission produces a
run of three break markers. -/
def exDoc10 : List DocxBlock :=
  [DocxBlock.para [] [⟨str "a", false, false, false⟩],
   DocxBlock.para [] [],
   DocxBlock.para [] [⟨str "b", false, false, false⟩]]

/-- Per-block hypothesis for the break-marker claims: no extracted text
contains a real newline or a backslash. -/
def blockTextsClean : DocxBlock → Prop
  | .para _ runs => ∀ r ∈ runs, '\n' ∉ r.text ∧ '\\' ∉ r.text
  | .table rows => ∀ row ∈ rows, ∀ c ∈ row, '\n' ∉ c ∧ '\\' ∉ c

/-! ## Supporting lemmas -/

theorem leadsWith_append (p t : List Char) : leadsWith p (p ++ t) = true := by
  induction p with
  | nil => rfl
  | cons a as ih => simpa [leadsWith] using ih

theorem leadsWith_ex {p s : List Char} (h : leadsWith p s = true) :
    ∃ t, s = p ++ t := by
  induction p generalizing s with
  | nil => exact ⟨s, rfl⟩
  | cons a as ih =>
    cases s with
    | nil => simp [leadsWith] at h
    | cons b bs =>
      simp only [leadsWith, Bool.and_eq_true, beq_iff_eq] at h
      obtain ⟨rfl, h2⟩ := h
      obtain ⟨t, rfl⟩ := ih h2
      exact ⟨t, rfl⟩

theorem leadsWith_init {p q s : List Char} (h : leadsWith (p ++ q) s = true) :
    leadsWith p s = true := by
  induction p generalizing s with
  | nil => rfl
  | cons a as ih =>
    cases s with
    | nil => simp [leadsWith] at h
    | cons b bs =>
      simp only [List.cons_append, leadsWith, Bool.and_eq_true] at h ⊢
      exact ⟨h.1, ih h.2⟩

theorem findSubAux_some {sub : List Char} :
    ∀ {s : List Char} {i j : Nat}, findSubAux sub i s = some j →
      i ≤ j ∧ leadsWith sub (s.drop (j - i)) = true := by
  intro s
  induction s with
  | nil =>
    intro i j h
    unfold findSubAux at h
    split at h
    · cases h
      exact ⟨Nat.le_refl _, by simpa using ‹leadsWith sub [] = true›⟩
    · cases h
  | cons c rest ih =>
    intro i j h
    unfold findSubAux at h
    split at h
    · cases h
      exact ⟨Nat.le_refl _,
        by simpa [Nat.sub_self] using ‹leadsWith sub (c :: rest) = true›⟩
    · obtain ⟨h1, h2⟩ := ih h
      refine ⟨by omega, ?_⟩
      have hd : (c :: rest).drop (j - i) = rest.drop (j - (i + 1)) := by
        have he : j - i = (j - (i + 1)) + 1 := by omega
        rw [he, List.drop_succ_cons]
      rw [hd]
      exact h2

theorem findSubAux_none {sub : List Char} :
    ∀ {s : List Char} {i : Nat}, findSubAux sub i s = none →
      ∀ d, leadsWith sub (s.drop d) = false := by
  intro s
  induction s with
  | nil =>
    intro i h d
    unfold findSubAux at h
    split at h
    · cases h
    · simpa using Bool.of_not_eq_true ‹¬leadsWith sub [] = true›
  | cons c rest ih =>
    intro i h d
    unfold findSubAux at h
    split at h
    · cases h
    · match d with
      | 0 => simpa using Bool.of_not_eq_true ‹¬leadsWith sub (c :: rest) = true›
      | d' + 1 => simpa [List.drop_succ_cons] using ih h d'

theorem rfindAux_some {sub : List Char} :
    ∀ {s : List Char} {i j : Nat}, rfindAux sub i s = some j →
      i ≤ j ∧ leadsWith sub (s.drop (j - i)) = true := by
  intro s
  induction s with
  | nil =>
    intro i j h
    unfold rfindAux at h
    split at h
    · cases h
      exact ⟨Nat.le_refl _, by simpa using ‹leadsWith sub [] = true›⟩
    · cases h
  | cons c rest ih =>
    intro i j h
    unfold rfindAux at h
    split at h
    · rename_i j' hrec
      cases h
      obtain ⟨h1, h2⟩ := ih hrec
      refine ⟨by omega, ?_⟩
      have hd : (c :: rest).drop (j - i) = rest.drop (j - (i + 1)) := by
        have he : j - i = (j - (i + 1)) + 1 := by omega
        rw [he, List.drop_succ_cons]
      rw [hd]
      exact h2
    · split at h
      · cases h
        exact ⟨Nat.le_refl _,
          by simpa [Nat.sub_self] using ‹leadsWith sub (c :: rest) = true›⟩
      · cases h

theorem rfindAux_none {sub : List Char} :
    ∀ {s : List Char} {i : Nat}, rfindAux sub i s = none →
      ∀ d, leadsWith sub (s.drop d) = false := by
  intro s
  induction s with
  | nil =>
    intro i h d
    unfold rfindAux at h
    split at h
    · cases h
    · simpa using Bool.of_not_eq_true ‹¬leadsWith sub [] = true›
  | cons c rest ih =>
    intro i h d
    unfold rfindAux at h
    split at h
    · cases h
    · rename_i hrec
      split at h
      · cases h
      · match d with
        | 0 => simpa using Bool.of_not_eq_true ‹¬leadsWith sub (c :: rest) = true›
        | d' + 1 => simpa [List.drop_succ_cons] using ih hrec d'

theorem rfindAux_max {sub : List Char} (hsub : leadsWith sub [] = false) :
    ∀ {s : List Char} {i j : Nat}, rfindAux sub i s = some j →
      ∀ d, leadsWith sub (s.drop d) = true → i + d ≤ j := by
  intro s
  induction s with
  | nil =>
    intro i j h d hd
    simp only [List.drop_nil] at hd
    rw [hsub] at hd
    cases hd
  | cons c rest ih =>
    intro i j h d hd
    unfold rfindAux at h
    split at h
    · rename_i j' hrec
      cases h
      match d with
      | 0 =>
        have := (rfindAux_some hrec).1
        omega
      | d' + 1 =>
        rw [List.drop_succ_cons] at hd
        have := ih hrec d' hd
        omega
    · rename_i hrec
      split at h
      · cases h
        match d with
        | 0 => omega
        | d' + 1 =>
          rw [List.drop_succ_cons] at hd
          rw [rfindAux_none hrec d'] at hd
          cases hd
      · cases h

theorem dropWhile_eq_self {p : Char → Bool} {s : List Char}
    (h : ∀ c, s.head? = some c → p c = false) : s.dropWhile p = s := by
  cases s with
  | nil => rfl
  | cons c t => simp [List.dropWhile, h c rfl]

theorem pyStrip_eq_self {s : List Char}
    (h1 : ∀ c, s.head? = some c → pyIsSpace c = false)
    (h2 : ∀ c, s.getLast? = some c → pyIsSpace c = false) : pyStrip s = s := by
  unfold pyStrip
  rw [dropWhile_eq_self h1]
  have hr : s.reverse.dropWhile pyIsSpace = s.reverse := by
    apply dropWhile_eq_self
    intro c hc
    rw [List.head?_reverse] at hc
    exact h2 c hc
  rw [hr, List.reverse_reverse]

theorem pyStrip_mem {s : List Char} {a : Char} (h : a ∈ pyStrip s) : a ∈ s := by
  unfold pyStrip at h
  rw [List.mem_reverse] at h
  have h2 := (List.dropWhile_sublist _).subset h
  rw [List.mem_reverse] at h2
  exact (List.dropWhile_sublist _).subset h2

theorem pyStrip_parts (s : List Char) : ∃ a b, s = a ++ pyStrip s ++ b := by
  refine ⟨s.takeWhile pyIsSpace,
    ((s.dropWhile pyIsSpace).reverse.takeWhile pyIsSpace).reverse, ?_⟩
  conv_lhs => rw [← List.takeWhile_append_dropWhile pyIsSpace s]
  rw [List.append_assoc]
  congr 1
  unfold pyStrip
  conv_lhs => rw [← List.reverse_reverse (s.dropWhile pyIsSpace)]
  conv_lhs =>
    rw [← List.takeWhile_append_dropWhile pyIsSpace (s.dropWhile pyIsSpace).reverse]
  rw [List.reverse_append]

theorem containsSub_all_false {sub s : List Char} (h : containsSub sub s = false) :
    ∀ d, leadsWith sub (s.drop d) = false := by
  unfold containsSub at h
  have hn : findSub s sub = none := by
    cases hf : findSub s sub with
    | none => rfl
    | some j => rw [hf] at h; cases h
  exact findSubAux_none hn

theorem containsSub_of_drop {sub s : List Char} {d : Nat}
    (h : leadsWith sub (s.drop d) = true) : containsSub sub s = true := by
  unfold containsSub
  cases hf : findSub s sub with
  | some j => rfl
  | none => rw [findSubAux_none hf d] at h; cases h

theorem joinSep_mem {sep : List Char} {parts : List (List Char)} {a : Char} :
    a ∈ joinSep sep parts → a ∈ sep ∨ ∃ p ∈ parts, a ∈ p := by
  induction parts with
  | nil => intro h; simp [joinSep] at h
  | cons x xs ih =>
    intro h
    cases xs with
    | nil => exact Or.inr ⟨x, by simp, by simpa [joinSep] using h⟩
    | cons y ys =>
      simp only [joinSep, List.append_assoc, List.mem_append] at h
      rcases h with h | h | h
      · exact Or.inr ⟨x, by simp, h⟩
      · exact Or.inl h
      · rcases ih h with h' | ⟨p, hp, ha⟩
        · exact Or.inl h'
        · exact Or.inr ⟨p, List.mem_cons_of_mem _ hp, ha⟩

theorem mkRow_head (cells : List (List Char)) :
    (mkRow cells).head? = some '|' := rfl

theorem mkRow_ne_nil (cells : List (List Char)) : mkRow cells ≠ [] := by
  intro h
  have hh := mkRow_head cells
  rw [h] at hh
  cases hh

theorem mkRow_mem {cells : List (List Char)} {a : Char}
    (h : a ∈ mkRow cells) :
    a = '|' ∨ a = ' ' ∨ ∃ c ∈ cells, a ∈ c := by
  unfold mkRow at h
  have e1 : str "| " = ['|', ' '] := rfl
  have e2 : str " | " = [' ', '|', ' '] := rfl
  have e3 : str " |" = [' ', '|'] := rfl
  rw [e1, e2, e3] at h
  rcases List.mem_append.1 h with h | h
  · rcases List.mem_append.1 h with h | h
    · have ha : a = '|' ∨ a = ' ' := by simpa using h
      rcases ha with rfl | rfl
      · exact Or.inl rfl
      · exact Or.inr (Or.inl rfl)
    · rcases joinSep_mem h with hsep | ⟨p, hp, ha⟩
      · have ha : a = ' ' ∨ a = '|' ∨ a = ' ' := by simpa using hsep
        rcases ha with rfl | rfl | rfl
        · exact Or.inr (Or.inl rfl)
        · exact Or.inl rfl
        · exact Or.inr (Or.inl rfl)
      · exact Or.inr (Or.inr ⟨p, hp, ha⟩)
  · have ha : a = ' ' ∨ a = '|' := by simpa using h
    rcases ha with rfl | rfl
    · exact Or.inr (Or.inl rfl)
    · exact Or.inl rfl

theorem docJoin_nil : docJoin [] = nlMark := rfl

theorem docJoin_cons (l : List Char) (ls : List (List Char)) :
    docJoin (l :: ls) = l ++ (nlMark ++ docJoin ls) := by
  simp [docJoin, List.append_assoc]

theorem emitRun_zero : emitRun 0 = [] := rfl

theorem collapseAux_nil (n : Nat) : collapseAux n [] = emitRun n := rfl

theorem collapseAux_marker (n : Nat) (t : List Char) :
    collapseAux n ('\\' :: 'n' :: t) = collapseAux (n + 1) t := rfl

theorem collapseAux_cons_ne (n : Nat) (c : Char) (t : List Char)
    (h : c ≠ '\\') :
    collapseAux n (c :: t) = emitRun n ++ c :: collapseAux 0 t := by
  cases t with
  | nil => rfl
  | cons d r => rw [collapseAux, if_neg (fun hand => h hand.1)]

theorem collapseAux_copy {l : List Char} (hl : '\\' ∉ l) (t : List Char) :
    collapseAux 0 (l ++ t) = l ++ collapseAux 0 t := by
  induction l with
  | nil => simp
  | cons c l' ih =>
    have hc : c ≠ '\\' := fun h => hl (h ▸ List.mem_cons_self c l')
    have h' : '\\' ∉ l' := fun h => hl (List.mem_cons_of_mem _ h)
    rw [List.cons_append, collapseAux_cons_ne 0 c _ hc, emitRun_zero,
      List.nil_append, ih h']
    rfl

theorem collapseAux_shift {n : Nat} {s : List Char}
    (h : ∀ c, s.head? = some c → c ≠ '\\') :
    collapseAux n s = emitRun n ++ collapseAux 0 s := by
  cases s with
  | nil => simp [collapseAux_nil, emitRun_zero]
  | cons c t =>
    have hc := h c rfl
    rw [collapseAux_cons_ne n c t hc, collapseAux_cons_ne 0 c t hc,
      emitRun_zero, List.nil_append]

theorem collapse_docJoin :
    ∀ lines : List (List Char), (∀ l ∈ lines, l ≠ [] ∧ '\\' ∉ l) →
      collapseMarkers (docJoin lines) = docJoin lines := by
  intro lines
  induction lines with
  | nil => intro _; rfl
  | cons l ls ih =>
    intro h
    obtain ⟨hne, hbs⟩ := h l (List.mem_cons_self _ _)
    have h' : ∀ x ∈ ls, x ≠ [] ∧ '\\' ∉ x :=
      fun x hx => h x (List.mem_cons_of_mem _ hx)
    unfold collapseMarkers at ih ⊢
    rw [docJoin_cons, collapseAux_copy hbs]
    congr 1
    show collapseAux 0 ('\\' :: 'n' :: docJoin ls) = nlMark ++ docJoin ls
    rw [collapseAux_marker]
    cases ls with
    | nil => rfl
    | cons l2 ls2 =>
      obtain ⟨hne2, hbs2⟩ := h' l2 (List.mem_cons_self _ _)
      have hd : ∀ c, (docJoin (l2 :: ls2)).head? = some c → c ≠ '\\' := by
        intro c hc
        rw [docJoin_cons] at hc
        cases l2 with
        | nil => exact absurd rfl hne2
        | cons a t2 =>
          simp only [List.cons_append, List.head?_cons, Option.some.injEq] at hc
          subst hc
          exact fun hEq => hbs2 (hEq ▸ List.mem_cons_self a t2)
      rw [collapseAux_shift hd, ih h']
      rfl

theorem splitMarkerAux_nil (acc : List Char) :
    splitMarkerAux acc [] = [acc.reverse] := rfl

theorem splitMarkerAux_marker (acc : List Char) (t : List Char) :
    splitMarkerAux acc ('\\' :: 'n' :: t) = acc.reverse :: splitMarkerAux [] t :=
  rfl

theorem splitMarkerAux_cons_ne (acc : List Char) (c : Char) (t : List Char)
    (h : c ≠ '\\') :
    splitMarkerAux acc (c :: t) = splitMarkerAux (c :: acc) t := by
  cases t with
  | nil => rfl
  | cons d r => rw [splitMarkerAux, if_neg (fun hand => h hand.1)]

theorem splitMarkerAux_copy {l : List Char} (hl : '\\' ∉ l) :
    ∀ (acc t : List Char),
      splitMarkerAux acc (l ++ t) = splitMarkerAux (l.reverse ++ acc) t := by
  induction l with
  | nil => intro acc t; simp
  | cons c l' ih =>
    intro acc t
    have hc : c ≠ '\\' := fun h => hl (h ▸ List.mem_cons_self c l')
    have h' : '\\' ∉ l' := fun h => hl (List.mem_cons_of_mem _ h)
    rw [List.cons_append, splitMarkerAux_cons_ne acc c _ hc, ih h' (c :: acc) t]
    simp

theorem split_docJoin :
    ∀ lines : List (List Char), (∀ l ∈ lines, '\\' ∉ l) →
      splitMarker (docJoin lines) = lines ++ [[], []] := by
  intro lines
  induction lines with
  | nil => intro _; rfl
  | cons l ls ih =>
    intro h
    have hbs : '\\' ∉ l := h l (List.mem_cons_self _ _)
    have h' : ∀ x ∈ ls, '\\' ∉ x := fun x hx => h x (List.mem_cons_of_mem _ hx)
    unfold splitMarker at ih ⊢
    rw [docJoin_cons, splitMarkerAux_copy hbs [] (nlMark ++ docJoin ls)]
    show splitMarkerAux (l.reverse ++ []) ('\\' :: 'n' :: docJoin ls) = _
    rw [splitMarkerAux_marker, ih h']
    simp

theorem docJoin_getLast (lines : List (List Char)) :
    (docJoin lines).getLast? = some 'n' := by
  unfold docJoin nlMark
  simp

theorem docJoin_head_cons {l : List Char} {ls : List (List Char)}
    (hne : l ≠ []) : (docJoin (l :: ls)).head? = l.head? := by
  rw [docJoin_cons]
  cases l with
  | nil => exact absurd rfl hne
  | cons a t => simp

/-! ## Claim theorems -/

/-- **C1.** If the marker-selection loop picks a code-fence marker (with or
without the `markdown` tag) whose first occurrence is at position 0 or
preceded by whitespace (`markerSel`), and a closing fence occurs at or after
the end of that marker, then the Markup Normalizer returns the substring
strictly between the end of the opening marker and the *last* such closing
fence, trimmed of surrounding whitespace; `e` is that last occurrence
(greedy-last-fence rule). -/
theorem c1_fence_extract_greedy_last (s m : List Char) (k e : Nat)
    (hm : markerSel s = some (m, k))
    (he : rfindFrom s fenceMark k = some e) :
    fenceClean s = pyStrip (slice s k e)
    ∧ k ≤ e
    ∧ leadsWith fenceMark (s.drop e) = true
    ∧ ∀ j, k ≤ j → leadsWith fenceMark (s.drop j) = true → j ≤ e := by
  have he' : rfindAux fenceMark k (s.drop k) = some e := he
  obtain ⟨hke, hmatch⟩ := rfindAux_some he'
  have hdd : (s.drop k).drop (e - k) = s.drop e := by
    rw [List.drop_drop]
    congr 1
    omega
  rw [hdd] at hmatch
  refine ⟨?_, hke, hmatch, ?_⟩
  · simp only [fenceClean, hm, he]
  · intro j hkj hj
    have hj' : leadsWith fenceMark ((s.drop k).drop (j - k)) = true := by
      rw [List.drop_drop]
      have : k + (j - k) = j := by omega
      rw [this]
      exact hj
    have := rfindAux_max (by rfl) he' (j - k) hj'
    omega

/-- Witness for C1 at a concrete fenced input. -/
theorem c1_fence_extract_greedy_last_witness :
    fenceClean (str "```markdown\nhi\n```") = str "hi" := by
  have h := c1_fence_extract_greedy_last (str "```markdown\nhi\n```")
    (str "```markdown") 11 15 (by decide) (by decide)
  exact h.1.trans (by decide)

/-- **C6 (corrected).** On input `" hi "`, which contains no code fence, the
Markup Normalizer returns the input *unchanged*, not trimmed: the claimed
equality with the trimmed input fails. -/
theorem c6_normalizer_counterexample :
    containsSub fenceMark (str " hi ") = false
    ∧ fenceClean (str " hi ") = str " hi "
    ∧ fenceClean (str " hi ") ≠ pyStrip (str " hi ") := by
  refine ⟨by decide, by decide, by decide⟩

/-- **C6 (amended).** For every string containing no code fence, the Markup
Normalizer returns its input unchanged (so it equals the trimmed input
exactly when the input carries no surrounding whitespace). -/
theorem c6_normalizer_identity_without_fences (M : List Char)
    (hf : containsSub fenceMark M = false) : fenceClean M = M := by
  have hmd : findSub M mdFence = none := by
    cases hx : findSub M mdFence with
    | none => rfl
    | some i =>
      obtain ⟨_, h2⟩ := findSubAux_some hx
      have hsplit : fenceMark ++ str "markdown" = mdFence := rfl
      have h3 : leadsWith fenceMark (M.drop (i - 0)) = true :=
        leadsWith_init (q := str "markdown") (by rw [hsplit]; exact h2)
      rw [containsSub_all_false hf _] at h3
      cases h3
  have hfm : findSub M fenceMark = none := by
    cases hx : findSub M fenceMark with
    | none => rfl
    | some i =>
      obtain ⟨_, h2⟩ := findSubAux_some hx
      rw [containsSub_all_false hf _] at h2
      cases h2
  have hsel : markerSel M = none := by
    unfold markerSel tryMarker
    rw [hmd, hfm]
  have hlw : leadsWith fenceMark (pyStrip M) = false := by
    cases hx : leadsWith fenceMark (pyStrip M) with
    | false => rfl
    | true =>
      obtain ⟨a, b, hab⟩ := pyStrip_parts M
      obtain ⟨t, ht⟩ := leadsWith_ex hx
      have hdropa : leadsWith fenceMark (M.drop a.length) = true := by
        conv_lhs => rw [hab, List.append_assoc, List.drop_left]
        rw [ht, List.append_assoc]
        exact leadsWith_append _ _
      rw [containsSub_all_false hf _] at hdropa
      cases hdropa
  simp only [fenceClean, hsel, hlw, Bool.false_and, Bool.and_eq_true]
  simp

/-- Witness for the amended C6 at a concrete fence-free input. -/
theorem c6_normalizer_identity_witness :
    fenceClean (str "hello") = str "hello" :=
  c6_normalizer_identity_without_fences (str "hello") (by decide)

theorem exists_ok {α : Type} (x : Except Exc α) (h : x.isOk = true) :
    ∃ r, x = Except.ok r := by
  cases x with
  | ok a => exact ⟨a, rfl⟩
  | error e => simp [Except.isOk, Except.toBool] at h

/-- **C5.** No exception crosses a converter boundary: for every
environment (including failing reads, corrupt documents and failing
writes), each of the seven converters of the conversion core — PDF→MD,
DOCX→MD, TXT→MD, DOCX→PDF, MD→PDF, MD→DOCX and MD→TXT — returns an
`Except.ok` value, success content or `True`/`False` with an error
message, never an `Except.error`. -/
theorem c5_converters_no_propagation :
    (∀ env : PdfEnv, ∃ r, (convert_pdf_to_md env).1 = Except.ok r)
    ∧ (∀ env : Except Exc (List DocxBlock), ∃ r, convert_docx_to_md env = Except.ok r)
    ∧ (∀ env : Except Exc (List Char), ∃ r, convert_txt_to_md env = Except.ok r)
    ∧ (∀ env : Except Exc Unit, ∃ r, convert_docx_to_pdf env = Except.ok r)
    ∧ (∀ env : MdPdfEnv, ∃ r, convert_md_to_pdf env = Except.ok r)
    ∧ (∀ env : MdDocxEnv, ∃ r, (convert_md_to_docx env).1 = Except.ok r)
    ∧ (∀ env : TxtEnv, ∃ r, (convert_md_to_txt env).1 = Except.ok r) := by
  refine ⟨?_, ?_, ?txtmd, ?_, ?_, ?mddocx, ?_⟩
  case txtmd =>
    intro env
    apply exists_ok
    cases env with
    | ok content => rfl
    | error e => rfl
  case mddocx =>
    intro env
    rcases env with ⟨readR, toHtml, saveR⟩
    apply exists_ok
    cases readR with
    | error e => rfl
    | ok md => cases saveR <;> rfl
  · intro env
    rcases env with ⟨openR⟩
    apply exists_ok
    cases openR with
    | error e => rfl
    | ok pages =>
      rcases hb : pdfPagesMd 0 pages with ⟨r1, fs⟩
      cases r1 with
      | ok md => simp [convert_pdf_to_md, hb, Except.isOk, Except.toBool]
      | error e => simp [convert_pdf_to_md, hb, Except.isOk, Except.toBool]
  · intro env
    apply exists_ok
    cases env with
    | ok blocks => rfl
    | error e => rfl
  · intro env
    apply exists_ok
    cases env with
    | ok u => rfl
    | error e =>
      cases hcc : containsSub engineMissingPat e <;>
        simp [convert_docx_to_pdf, hcc, Except.isOk, Except.toBool]
  · intro env
    rcases env with ⟨readR, toHtml, insertR, saveR⟩
    apply exists_ok
    cases readR with
    | error e => rfl
    | ok md =>
      cases insertR with
      | error e => rfl
      | ok rv => cases saveR <;> rfl
  · intro env
    rcases env with ⟨readR, writeR⟩
    apply exists_ok
    cases readR with
    | error e => rfl
    | ok s => cases writeR <;> rfl

/-- **C8 (corrected).** The missing-engine failure and a generic conversion
failure produce the *same* returned value (`False`), so the caller cannot
distinguish them by the returned value; only the printed message differs. -/
theorem c8_engine_return_counterexample :
    returnedBool (convert_docx_to_pdf (.error engineErr)) = some false
    ∧ returnedBool (convert_docx_to_pdf (.error otherErr)) = some false := by
  exact ⟨by decide, by decide⟩

/-- **C8 (amended).** `convert_docx_to_pdf` returns `False` for every
failure; the missing-engine condition is identified only in the printed
message, which is a fixed line different from the generic
`Error converting DOCX to PDF: <exception>` line. -/
theorem c8_engine_message_distinct (e : Exc) :
    returnedBool (convert_docx_to_pdf (.error e)) = some false
    ∧ (containsSub engineMissingPat e = true →
        printsOf (convert_docx_to_pdf (.error e))
          = [str "Error converting DOCX to PDF: Microsoft Word or LibreOffice not found. Please install one and ensure it is in your PATH."])
    ∧ (containsSub engineMissingPat e = false →
        printsOf (convert_docx_to_pdf (.error e))
          = [str "Error converting DOCX to PDF: " ++ e]) := by
  refine ⟨?_, ?_, ?_⟩
  · cases hcc : containsSub engineMissingPat e <;>
      simp [convert_docx_to_pdf, returnedBool, hcc]
  · intro hcc
    simp [convert_docx_to_pdf, printsOf, hcc]
  · intro hcc
    simp [convert_docx_to_pdf, printsOf, hcc]

/-- Witness for the amended C8 at the two failure kinds. -/
theorem c8_engine_message_distinct_witness :
    printsOf (convert_docx_to_pdf (.error engineErr))
      = [str "Error converting DOCX to PDF: Microsoft Word or LibreOffice not found. Please install one and ensure it is in your PATH."]
    ∧ printsOf (convert_docx_to_pdf (.error otherErr))
      = [str "Error converting DOCX to PDF: " ++ otherErr] :=
  ⟨(c8_engine_message_distinct engineErr).2.1 (by decide),
   (c8_engine_message_distinct otherErr).2.2 (by decide)⟩

/-- **C4 (corrected).** The three layout outcomes — fit, overflow, invalid
HTML/CSS — all make `convert_md_to_pdf` return the same value `True`: the
caller cannot distinguish them via the returned value. -/
theorem c4_layout_return_counterexample :
    returnedBool (convert_md_to_pdf envFit) = some true
    ∧ returnedBool (convert_md_to_pdf envOvf) = some true
    ∧ returnedBool (convert_md_to_pdf envBad) = some true := by
  refine ⟨rfl, rfl, rfl⟩

/-- **C4 (amended).** When reading, layout and saving succeed,
`convert_md_to_pdf` returns `True` for every `insert_htmlbox` outcome; the
three outcomes are distinguished only by the printed warning lines
(`warningsFor`), which are pairwise distinct for fit, overflow and invalid
HTML/CSS. -/
theorem c4_layout_outcomes_printed_only (env : MdPdfEnv) (md : List Char)
    (rv : FitzInsert) (hr : env.readResult = .ok md)
    (hi : env.insertResult = .ok rv) (hs : env.saveResult = .ok ()) :
    convert_md_to_pdf env
      = .ok (true, mdPdfDbg (fenceClean md)
              (spacerHtml ++ env.mdToHtml (fenceClean md)) ++ warningsFor rv)
    ∧ warningsFor (.irect true) = []
    ∧ warningsFor (.irect false) ≠ warningsFor (.irect true)
    ∧ warningsFor (.icode (-2)) ≠ warningsFor (.irect true)
    ∧ warningsFor (.icode (-2)) ≠ warningsFor (.irect false) := by
  refine ⟨?_, by decide, by decide, by decide, by decide⟩
  unfold convert_md_to_pdf
  rw [hr, hi, hs]

/-- Witness for the amended C4 at the overflow outcome. -/
theorem c4_layout_outcomes_printed_only_witness :
    convert_md_to_pdf envOvf
      = .ok (true, mdPdfDbg (fenceClean (str "x"))
              (spacerHtml ++ mdHtmlStub (fenceClean (str "x")))
              ++ warningsFor (.irect false)) :=
  (c4_layout_outcomes_printed_only envOvf (str "x") (.irect false)
    rfl rfl rfl).1

/-- **C2.** A DOCX body holding exactly one table with `N = 1 + |rs|` rows,
each of `K` cells (cells free of `|` and backslash), converts to Markdown
whose break-marker lines are exactly: the header row line, one separator
line of `K` cells `---`, the `N - 1` remaining row lines, and the two empty
tails left by the closing markers — i.e. `N` pipe rows of `K` cells plus
one separator row. -/
theorem c2_docx_table_pipe_rows (r0 : List (List Char))
    (rs : List (List (List Char))) (K : Nat)
    (hlen : ∀ r ∈ r0 :: rs, List.length r = K)
    (hcell : ∀ r ∈ r0 :: rs, ∀ c ∈ r, '|' ∉ c ∧ '\\' ∉ c) :
    splitMarker (getOk (convert_docx_to_md (.ok [DocxBlock.table (r0 :: rs)])))
      = mkRow (r0.map pyStrip) :: mkRow (List.replicate K (str "---"))
          :: rs.map (fun r => mkRow (r.map pyStrip)) ++ [[], []] := by
  have htable : tableMd (r0 :: rs)
      = docJoin (mkRow (r0.map pyStrip)
          :: mkRow (List.replicate r0.length (str "---"))
          :: rs.map (fun r => mkRow (r.map pyStrip))) := by
    simp [tableMd, docJoin, List.map_map, Function.comp_def, List.append_assoc]
  have hK0 : r0.length = K := hlen r0 (List.mem_cons_self _ _)
  have hbsRow : ∀ r ∈ r0 :: rs, '\\' ∉ mkRow (r.map pyStrip) := by
    intro r hr hmem
    rcases mkRow_mem hmem with h | h | ⟨c, hc, hac⟩
    · exact absurd h (by decide)
    · exact absurd h (by decide)
    · rcases List.mem_map.1 hc with ⟨c0, hc0, rfl⟩
      exact (hcell r hr c0 hc0).2 (pyStrip_mem hac)
  have hbsSep : '\\' ∉ mkRow (List.replicate r0.length (str "---")) := by
    intro hmem
    rcases mkRow_mem hmem with h | h | ⟨c, hc, hac⟩
    · exact absurd h (by decide)
    · exact absurd h (by decide)
    · rw [(List.mem_replicate.1 hc).2] at hac
      exact absurd hac (by decide)
  have hprops : ∀ l ∈ mkRow (r0.map pyStrip)
      :: mkRow (List.replicate r0.length (str "---"))
      :: rs.map (fun r => mkRow (r.map pyStrip)), l ≠ [] ∧ '\\' ∉ l := by
    intro l hl
    rcases List.mem_cons.1 hl with rfl | hl
    · exact ⟨mkRow_ne_nil _, hbsRow r0 (List.mem_cons_self _ _)⟩
    rcases List.mem_cons.1 hl with rfl | hl
    · exact ⟨mkRow_ne_nil _, hbsSep⟩
    rcases List.mem_map.1 hl with ⟨r, hr, rfl⟩
    exact ⟨mkRow_ne_nil _, hbsRow r (List.mem_cons_of_mem _ hr)⟩
  have hbsOnly : ∀ l ∈ mkRow (r0.map pyStrip)
      :: mkRow (List.replicate r0.length (str "---"))
      :: rs.map (fun r => mkRow (r.map pyStrip)), '\\' ∉ l :=
    fun l hl => (hprops l hl).2
  have hconv : getOk (convert_docx_to_md (.ok [DocxBlock.table (r0 :: rs)]))
      = pyStrip (collapseMarkers (docJoin (mkRow (r0.map pyStrip)
          :: mkRow (List.replicate r0.length (str "---"))
          :: rs.map (fun r => mkRow (r.map pyStrip))))) := by
    simp [convert_docx_to_md, getOk, docxMd, docxBlockMd, htable]
  rw [hconv, collapse_docJoin _ hprops]
  have hstrip : pyStrip (docJoin (mkRow (r0.map pyStrip)
      :: mkRow (List.replicate r0.length (str "---"))
      :: rs.map (fun r => mkRow (r.map pyStrip))))
      = docJoin (mkRow (r0.map pyStrip)
          :: mkRow (List.replicate r0.length (str "---"))
          :: rs.map (fun r => mkRow (r.map pyStrip))) := by
    apply pyStrip_eq_self
    · intro c hc
      rw [docJoin_head_cons (mkRow_ne_nil _), mkRow_head] at hc
      injection hc with hc
      rw [← hc]
      decide
    · intro c hc
      rw [docJoin_getLast] at hc
      injection hc with hc
      rw [← hc]
      decide
  rw [hstrip, split_docJoin _ hbsOnly, hK0]

/-- Witness for C2 at a concrete 2×2 table. -/
theorem c2_docx_table_pipe_rows_witness :
    splitMarker (getOk (convert_docx_to_md (.ok
        [DocxBlock.table [[str "a", str "b"], [str "c", str "d"]]])))
      = [str "| a | b |", str "| --- | --- |", str "| c | d |", [], []] := by
  have h := c2_docx_table_pipe_rows [str "a", str "b"] [[str "c", str "d"]] 2
    (by decide) (by decide)
  exact h.trans (by decide)

theorem amendedHeadingLevel_pos (style : List Char) :
    1 ≤ amendedHeadingLevel style := by
  unfold amendedHeadingLevel
  cases lastDigit style with
  | none => simp
  | some d =>
    cases d with
    | zero => simp
    | succ n => simp

/-- The shared post-processing of a single emitted block `lead ++ "\\n\\n"`:
the collapse regex and the final strip leave it unchanged when the lead is
nonempty, backslash-free and starts with a non-whitespace character. -/
theorem docxMd_single_block {lead : List Char} (hne : lead ≠ [])
    (hbs : '\\' ∉ lead)
    (hhead : ∀ c, lead.head? = some c → pyIsSpace c = false) :
    pyStrip (collapseMarkers (lead ++ nlMark ++ nlMark))
      = lead ++ nlMark ++ nlMark := by
  have hjd : lead ++ nlMark ++ nlMark = docJoin [lead] := by
    simp [docJoin, List.append_assoc]
  rw [hjd, collapse_docJoin _ ?props]
  case props =>
    intro l hl
    rcases List.mem_cons.1 hl with rfl | hl
    · exact ⟨hne, hbs⟩
    · simp at hl
  apply pyStrip_eq_self
  · intro c hc
    rw [docJoin_head_cons hne] at hc
    exact hhead c hc
  · intro c hc
    rw [docJoin_getLast] at hc
    injection hc with hc
    rw [← hc]
    decide

/-- **C3 (corrected).** A paragraph styled `Title` does *not* become a
level-1 heading: the `Title`/`Subtitle` tests sit inside the
`startswith('Heading')` branch and are unreachable, so the paragraph is
rendered as plain body text. -/
theorem c3_title_style_counterexample :
    convert_docx_to_md (.ok [DocxBlock.para (str "Title")
        [⟨str "Hi", false, false, false⟩]]) = .ok (str "Hi\\n\\n")
    ∧ str "Hi\\n\\n" ≠ str "# Hi\\n\\n" :=
  ⟨rfl, by decide⟩

/-- **C3 (amended).** For a non-blank paragraph whose style name starts
with `Heading` (texts free of backslashes), the emitted block is a heading
whose level is: the trailing digit `d` when `d ≥ 1`; 2 (the `##` fallback)
when the trailing digit is `0`; and 1 when the last character is not a
digit.  `Title`/`Subtitle` styles lack the `Heading` prefix and are treated
as body text (see the counterexample). -/
theorem c3_heading_classification (style : List Char) (runs : List DocxRun)
    (hH : leadsWith (str "Heading") style = true)
    (hne : pyStrip (paraText runs) ≠ [])
    (hbs : '\\' ∉ paraText runs) :
    convert_docx_to_md (.ok [DocxBlock.para style runs])
      = .ok ((List.replicate (amendedHeadingLevel style) '#'
          ++ ' ' :: pyStrip (paraText runs)) ++ nlMark ++ nlMark) := by
  obtain ⟨t, rfl⟩ := leadsWith_ex hH
  have hempty : (pyStrip (paraText runs)).isEmpty = false := by
    cases hx : (pyStrip (paraText runs)).isEmpty
    · rfl
    · exact absurd (List.isEmpty_iff.1 hx) hne
  have htitle : (pyLower (str "Heading" ++ t) == str "title") = false := by
    rw [beq_eq_false_iff_ne]
    intro heq
    have h1 : (pyLower (str "Heading" ++ t)).head? = some 'h' := rfl
    rw [heq] at h1
    exact absurd h1 (by decide)
  have hsubtitle : (pyLower (str "Heading" ++ t) == str "subtitle") = false := by
    rw [beq_eq_false_iff_ne]
    intro heq
    have h1 : (pyLower (str "Heading" ++ t)).head? = some 'h' := rfl
    rw [heq] at h1
    exact absurd h1 (by decide)
  have hpara : paraMd (str "Heading" ++ t) runs
      = (List.replicate (amendedHeadingLevel (str "Heading" ++ t)) '#'
          ++ ' ' :: pyStrip (paraText runs)) ++ nlMark ++ nlMark := by
    unfold paraMd amendedHeadingLevel
    simp only [hempty, hH, htitle, hsubtitle, Bool.false_eq_true, if_false,
      if_true]
    cases hld : lastDigit (str "Heading" ++ t) with
    | none =>
      simp only [hld]
      simp [List.append_assoc]
    | some d =>
      cases d with
      | zero =>
        simp only [hld]
        simp [List.append_assoc]
        rfl
      | succ n =>
        simp only [hld]
        simp [List.append_assoc]
  have hleadne : List.replicate (amendedHeadingLevel (str "Heading" ++ t)) '#'
      ++ ' ' :: pyStrip (paraText runs) ≠ [] := by simp
  have hleadbs : '\\' ∉ List.replicate (amendedHeadingLevel (str "Heading" ++ t)) '#'
      ++ ' ' :: pyStrip (paraText runs) := by
    intro hmem
    rcases List.mem_append.1 hmem with h | h
    · exact absurd (List.eq_of_mem_replicate h) (by decide)
    · rcases List.mem_cons.1 h with h | h
      · exact absurd h (by decide)
      · exact hbs (pyStrip_mem h)
  have hleadhead : ∀ c, (List.replicate (amendedHeadingLevel (str "Heading" ++ t)) '#'
      ++ ' ' :: pyStrip (paraText runs)).head? = some c → pyIsSpace c = false := by
    intro c hc
    obtain ⟨L, hL⟩ : ∃ L, amendedHeadingLevel (str "Heading" ++ t) = L + 1 :=
      ⟨amendedHeadingLevel (str "Heading" ++ t) - 1, by
        have := amendedHeadingLevel_pos (str "Heading" ++ t)
        omega⟩
    rw [hL, List.replicate_succ, List.cons_append, List.head?_cons,
      Option.some.injEq] at hc
    rw [← hc]
    decide
  show Except.ok (docxMd [DocxBlock.para (str "Heading" ++ t) runs]) = _
  rw [docxMd]
  simp only [List.map_cons, List.map_nil, List.flatten_cons, List.flatten_nil,
    List.append_nil, docxBlockMd]
  rw [hpara, docxMd_single_block hleadne hleadbs hleadhead]

/-- Witness for the amended C3 at style `Heading 3`. -/
theorem c3_heading_classification_witness :
    convert_docx_to_md (.ok [DocxBlock.para (str "Heading 3")
        [⟨str "Hi", false, false, false⟩]]) = .ok (str "### Hi\\n\\n") := by
  have h := c3_heading_classification (str "Heading 3")
    [⟨str "Hi", false, false, false⟩] (by decide) (by decide) (by decide)
  exact h.trans (congrArg Except.ok (by decide))

theorem pdfImagesMd_all_ok (n : Nat) :
    ∀ (imgs : List (Except Exc Unit)) (i : Nat), (∀ r ∈ imgs, r = .ok ()) →
      pdfImagesMd n i imgs
        = (.ok (imgRefsBlock (n + 1) (i + 1) imgs.length),
           imgFilesBlock (n + 1) (i + 1) imgs.length) := by
  intro imgs
  induction imgs with
  | nil => intro i _; rfl
  | cons r rs ih =>
    intro i h
    have hr : r = .ok () := h r (List.mem_cons_self _ _)
    have hrs : ∀ x ∈ rs, x = .ok () := fun x hx => h x (List.mem_cons_of_mem _ hx)
    subst hr
    simp only [pdfImagesMd, ih (i + 1) hrs, List.length_cons]
    simp [imgRefsBlock, imgFilesBlock, Except.map]

theorem pdfPagesMd_all_ok :
    ∀ (pages : List PdfPage) (n : Nat),
      (∀ p ∈ pages, ∀ r ∈ p.images, r = .ok ()) →
      pdfPagesMd n pages
        = (.ok (pdfExpectedMd n pages), pdfExpectedFiles n pages) := by
  intro pages
  induction pages with
  | nil => intro n _; rfl
  | cons p ps ih =>
    intro n h
    have hp : ∀ r ∈ p.images, r = .ok () := h p (List.mem_cons_self _ _)
    have hps : ∀ q ∈ ps, ∀ r ∈ q.images, r = .ok () :=
      fun q hq => h q (List.mem_cons_of_mem _ hq)
    simp only [pdfPagesMd, pdfImagesMd_all_ok n p.images 0 hp, ih (n + 1) hps]
    simp [pdfExpectedMd, pdfExpectedFiles, Except.map, List.append_assoc]

/-- **C9.** For every readable PDF (all pages and image extractions
succeed), `convert_pdf_to_md` emits, per page in reading order: the
page-number heading, the extracted text, a blank separator, then one image
reference per embedded image — and writes the side-files
`image_p{page}_{index}.png` with 1-based page and index numbers. -/
theorem c9_pdf_page_structure (env : PdfEnv) (pages : List PdfPage)
    (hopen : env.openResult = .ok pages)
    (himg : ∀ p ∈ pages, ∀ r ∈ p.images, r = .ok ()) :
    convert_pdf_to_md env
      = (.ok (pdfExpectedMd 0 pages), pdfExpectedFiles 0 pages) := by
  unfold convert_pdf_to_md
  rw [hopen]
  simp only [pdfPagesMd_all_ok pages 0 himg]

/-- Witness for C9 at a one-page, one-image PDF. -/
theorem c9_pdf_page_structure_witness :
    convert_pdf_to_md envPdfEx
      = (.ok (str "## Page 1\nT\n\n![Image 1 from page 1](image_p1_1.png)\n\n"),
         [str "image_p1_1.png"]) := by
  have h := c9_pdf_page_structure envPdfEx
    [{ text := str "T", images := [.ok ()] }] rfl
    (by
      intro p hp r hr
      rw [List.mem_singleton] at hp
      subst hp
      exact List.mem_singleton.1 hr)
  refine h.trans ?_
  refine congrArg₂ Prod.mk (congrArg Except.ok ?_) ?_ <;> decide

theorem paraText_mem {runs : List DocxRun} {a : Char} (h : a ∈ paraText runs) :
    ∃ r ∈ runs, a ∈ r.text := by
  unfold paraText at h
  rcases List.mem_flatten.1 h with ⟨l, hl, ha⟩
  rcases List.mem_map.1 hl with ⟨r, hr, rfl⟩
  exact ⟨r, hr, ha⟩

theorem runMd_mem {r : DocxRun} {a : Char} (h : a ∈ runMd r) :
    a = '*' ∨ a ∈ r.text := by
  unfold runMd at h
  have e3 : str "***" = List.replicate 3 '*' := rfl
  have e2 : str "**" = List.replicate 2 '*' := rfl
  have e1 : str "*" = List.replicate 1 '*' := rfl
  split at h
  · rw [e3] at h
    rcases List.mem_append.1 h with h | h
    · rcases List.mem_append.1 h with h | h
      · exact Or.inl (List.eq_of_mem_replicate h)
      · exact Or.inr h
    · exact Or.inl (List.eq_of_mem_replicate h)
  · split at h
    · rw [e2] at h
      rcases List.mem_append.1 h with h | h
      · rcases List.mem_append.1 h with h | h
        · exact Or.inl (List.eq_of_mem_replicate h)
        · exact Or.inr h
      · exact Or.inl (List.eq_of_mem_replicate h)
    · split at h
      · rw [e1] at h
        rcases List.mem_append.1 h with h | h
        · rcases List.mem_append.1 h with h | h
          · exact Or.inl (List.eq_of_mem_replicate h)
          · exact Or.inr h
        · exact Or.inl (List.eq_of_mem_replicate h)
      · exact Or.inr h

theorem nl_not_in_mkRow_strip {row : List (List Char)}
    (hrow : ∀ c ∈ row, '\n' ∉ c) : '\n' ∉ mkRow (row.map pyStrip) := by
  intro hmem
  rcases mkRow_mem hmem with h | h | ⟨c, hc, hac⟩
  · exact absurd h (by decide)
  · exact absurd h (by decide)
  · rcases List.mem_map.1 hc with ⟨c0, hc0, rfl⟩
    exact hrow c0 hc0 (pyStrip_mem hac)

theorem nl_not_in_mkRow_sep (k : Nat) :
    '\n' ∉ mkRow (List.replicate k (str "---")) := by
  intro hmem
  rcases mkRow_mem hmem with h | h | ⟨c, hc, hac⟩
  · exact absurd h (by decide)
  · exact absurd h (by decide)
  · rw [List.eq_of_mem_replicate hc] at hac
    exact absurd hac (by decide)

theorem headingOut_mem {lvl : Nat} {stext : List Char} {a : Char}
    (h : a ∈ (if lvl > 0 then
        List.replicate lvl '#' ++ ' ' :: stext ++ nlMark ++ nlMark
      else str "## " ++ stext ++ nlMark ++ nlMark)) :
    a = '\\' ∨ a = 'n' ∨ a = '#' ∨ a = ' ' ∨ a ∈ stext := by
  split at h
  · rcases List.mem_append.1 h with h | h
    · rcases List.mem_append.1 h with h | h
      · rcases List.mem_append.1 h with h | h
        · exact Or.inr (Or.inr (Or.inl (List.eq_of_mem_replicate h)))
        · rcases List.mem_cons.1 h with rfl | h
          · tauto
          · exact Or.inr (Or.inr (Or.inr (Or.inr h)))
      · have hd : a = '\\' ∨ a = 'n' := by simpa [nlMark] using h
        tauto
    · have hd : a = '\\' ∨ a = 'n' := by simpa [nlMark] using h
      tauto
  · rcases List.mem_append.1 h with h | h
    · rcases List.mem_append.1 h with h | h
      · rcases List.mem_append.1 h with h | h
        · have hd : a = '#' ∨ a = ' ' := by simpa [str] using h
          tauto
        · exact Or.inr (Or.inr (Or.inr (Or.inr h)))
      · have hd : a = '\\' ∨ a = 'n' := by simpa [nlMark] using h
        tauto
    · have hd : a = '\\' ∨ a = 'n' := by simpa [nlMark] using h
      tauto

theorem paraMd_mem {style : List Char} {runs : List DocxRun} {a : Char}
    (h : a ∈ paraMd style runs) :
    a = '\\' ∨ a = 'n' ∨ a = '#' ∨ a = ' ' ∨ a = '*'
      ∨ ∃ r ∈ runs, a ∈ r.text := by
  simp only [paraMd] at h
  by_cases h1 : (pyStrip (paraText runs)).isEmpty = true
  · rw [if_pos h1] at h
    by_cases h2 : runs.any DocxRun.isDrawing = true
    · rw [if_pos h2] at h
      simp at h
    · rw [if_neg h2] at h
      have hd : a = '\\' ∨ a = 'n' := by simpa [nlMark] using h
      tauto
  · rw [if_neg h1] at h
    by_cases h2 : leadsWith (str "Heading") style = true
    · rw [if_pos h2] at h
      rcases headingOut_mem h with h' | h' | h' | h' | h'
      · tauto
      · tauto
      · tauto
      · tauto
      · obtain ⟨r, hr, ha⟩ := paraText_mem (pyStrip_mem h')
        exact Or.inr (Or.inr (Or.inr (Or.inr (Or.inr ⟨r, hr, ha⟩))))
    · rw [if_neg h2] at h
      rcases List.mem_append.1 h with h | h
      · rcases List.mem_append.1 h with h | h
        · rcases List.mem_flatten.1 h with ⟨l, hl, ha⟩
          rcases List.mem_map.1 hl with ⟨r, hr, rfl⟩
          rcases runMd_mem ha with h' | h'
          · tauto
          · exact Or.inr (Or.inr (Or.inr (Or.inr (Or.inr ⟨r, hr, h'⟩))))
        · have hd : a = '\\' ∨ a = 'n' := by simpa [nlMark] using h
          tauto
      · have hd : a = '\\' ∨ a = 'n' := by simpa [nlMark] using h
        tauto

theorem nl_not_in_block {b : DocxBlock} (hb : blockTextsClean b) :
    '\n' ∉ docxBlockMd b := by
  intro hmem
  cases b with
  | para style runs =>
    simp only [docxBlockMd] at hmem
    rcases paraMd_mem hmem with h | h | h | h | h | ⟨r, hr, ha⟩
    · exact absurd h (by decide)
    · exact absurd h (by decide)
    · exact absurd h (by decide)
    · exact absurd h (by decide)
    · exact absurd h (by decide)
    · exact (hb r hr).1 ha
  | table rows =>
    simp only [docxBlockMd] at hmem
    cases rows with
    | nil => simp [tableMd] at hmem
    | cons r0 rs =>
      unfold tableMd at hmem
      have h0 : ∀ c ∈ r0, '\n' ∉ c :=
        fun c hc => (hb r0 (List.mem_cons_self _ _) c hc).1
      rcases List.mem_append.1 hmem with h | h
      · rcases List.mem_append.1 h with h | h
        · rcases List.mem_append.1 h with h | h
          · rcases List.mem_append.1 h with h | h
            · exact nl_not_in_mkRow_strip h0 h
            · exact absurd h (by decide)
          · rcases List.mem_append.1 h with h | h
            · exact nl_not_in_mkRow_sep _ h
            · exact absurd h (by decide)
        · rcases List.mem_flatten.1 h with ⟨l, hl, ha⟩
          rcases List.mem_map.1 hl with ⟨r, hr, rfl⟩
          rcases List.mem_append.1 ha with ha | ha
          · refine nl_not_in_mkRow_strip ?_ ha
            exact fun c hc => (hb r (List.mem_cons_of_mem _ hr) c hc).1
          · exact absurd ha (by decide)
      · exact absurd h (by decide)

theorem collapseAux_rep (j : Nat) :
    ∀ k, collapseAux k ((List.replicate j nlMark).flatten) = emitRun (k + j) := by
  induction j with
  | zero => intro k; rfl
  | succ m ih =>
    intro k
    have hrep : (List.replicate (m + 1) nlMark).flatten
        = '\\' :: 'n' :: (List.replicate m nlMark).flatten := by
      rw [List.replicate_succ, List.flatten_cons]
      rfl
    rw [hrep, collapseAux_marker, ih (k + 1)]
    congr 1
    omega

/-- **C10 (corrected).** The DOCX body (text `a`, blank, text `b`) emits a
run of three literal break markers; the collapsing regex rewrites that run
to two *actual newline characters*, so the returned Markdown contains a
real `'\n'` even though no extracted text does. -/
theorem c10_literal_marker_counterexample :
    convert_docx_to_md (.ok exDoc10) = .ok (str "a\n\nb\\n\\n")
    ∧ '\n' ∈ str "a\n\nb\\n\\n"
    ∧ '\n' ∉ str "a" ∧ '\n' ∉ str "b" :=
  ⟨rfl, by decide, by decide, by decide⟩

/-- **C10 (amended).** Every block separator and line break emitted by
`convert_docx_to_md` is the literal two-character sequence `\` `n` — the
pre-collapse emission contains no real newline when the extracted texts
have none — but the post-processing regex replaces every run of three or
more of these markers by exactly two *actual newline characters* `"\n\n"`
(the replacement template `'\\n\\n'` is interpreted by the `re` module), so
the returned Markdown can contain real newlines at the collapse points. -/
theorem c10_markers_amended :
    (∀ blocks : List DocxBlock, (∀ b ∈ blocks, blockTextsClean b) →
      '\n' ∉ (blocks.map docxBlockMd).flatten)
    ∧ (∀ n, 3 ≤ n →
        collapseMarkers ((List.replicate n nlMark).flatten) = ['\n', '\n']) := by
  constructor
  · intro blocks hclean hmem
    rcases List.mem_flatten.1 hmem with ⟨l, hl, ha⟩
    rcases List.mem_map.1 hl with ⟨b, hbmem, rfl⟩
    exact nl_not_in_block (hclean b hbmem) ha
  · intro n hn
    unfold collapseMarkers
    rw [collapseAux_rep n 0]
    unfold emitRun
    rw [if_pos (by omega)]

/-- Witness for the amended C10: a one-paragraph body emits no real
newline, and a run of three markers collapses to two newline characters. -/
theorem c10_markers_amended_witness :
    '\n' ∉ ([DocxBlock.para [] [⟨str "x", false, false, false⟩]].map
        docxBlockMd).flatten
    ∧ collapseMarkers ((List.replicate 3 nlMark).flatten) = ['\n', '\n'] := by
  constructor
  · refine c10_markers_amended.1 _ ?_
    intro b hb
    rw [List.mem_singleton] at hb
    subst hb
    intro r hr
    rw [List.mem_singleton] at hr
    subst hr
    exact ⟨by decide, by decide⟩
  · exact c10_markers_amended.2 3 (by omega)

theorem star_not_in_sub2_aux :
    ∀ (n : Nat) (prev : Option Char) (s : List Char), s.length ≤ n →
      '*' ∉ sub2 prev s := by
  intro n
  induction n with
  | zero =>
    intro prev s h
    have hs : s = [] := List.length_eq_zero.1 (Nat.le_zero.1 h)
    subst hs
    simp [sub2]
  | succ m ih =>
    intro prev s hlen
    match s with
    | [] => simp [sub2]
    | [c] =>
      simp only [sub2]
      by_cases hc : c = '*'
      · rw [if_pos hc]
        simp
      · rw [if_neg hc]
        by_cases hc2 : c = '_'
        · rw [if_pos hc2]
          split <;> decide
        · rw [if_neg hc2]
          intro hm
          exact hc (List.mem_singleton.1 hm).symm
    | c :: d :: rest =>
      have hlen2 : rest.length ≤ m := by
        simp only [List.length_cons] at hlen
        omega
      have hlen1 : (d :: rest).length ≤ m := by
        simp only [List.length_cons] at hlen ⊢
        omega
      simp only [sub2]
      by_cases hc : c = '*'
      · rw [if_pos hc]
        by_cases hd : d = '*'
        · rw [if_pos hd]
          exact ih _ _ hlen2
        · rw [if_neg hd]
          exact ih _ _ hlen1
      · rw [if_neg hc]
        by_cases hc2 : c = '_'
        · rw [if_pos hc2]
          by_cases hd : d = '_'
          · rw [if_pos hd]
            exact ih _ _ hlen2
          · rw [if_neg hd]
            split
            · exact ih _ _ hlen1
            · intro hm
              rcases List.mem_cons.1 hm with h' | h'
              · exact absurd h' (by decide)
              · exact ih _ _ hlen1 h'
        · rw [if_neg hc2]
          intro hm
          rcases List.mem_cons.1 hm with h' | h'
          · exact hc h'.symm
          · exact ih _ _ hlen1 h'

theorem star_not_in_sub2 (prev : Option Char) (s : List Char) :
    '*' ∉ sub2 prev s :=
  star_not_in_sub2_aux s.length prev s (Nat.le_refl _)

theorem matchLink_mem {s : List Char} {p : List Char × List Char}
    (h : matchLink s = some p) :
    (∀ a ∈ p.1, a ∈ s) ∧ (∀ a ∈ p.2, a ∈ s) := by
  unfold matchLink at h
  split at h
  · rename_i t
    simp only [] at h
    split at h
    · cases h
    · split at h
      · rename_i u hu
        split at h
        · cases h
        · split at h
          · rename_i v hv
            cases h
            constructor
            · intro a ha
              exact List.mem_cons_of_mem '['
                ((List.takeWhile_sublist _).subset ha)
            · intro a ha
              have h1 : a ∈ ')' :: v := List.mem_cons_of_mem ')' ha
              rw [← hv] at h1
              have h2 : a ∈ u := (List.dropWhile_sublist _).subset h1
              have h3 : a ∈ ']' :: '(' :: u :=
                List.mem_cons_of_mem ']' (List.mem_cons_of_mem '(' h2)
              rw [← hu] at h3
              exact List.mem_cons_of_mem '['
                ((List.dropWhile_sublist _).subset h3)
          · cases h
      · cases h
  · cases h

theorem matchImg_mem {s v : List Char} (h : matchImg s = some v) :
    ∀ a ∈ v, a ∈ s := by
  unfold matchImg at h
  split at h
  · rename_i t
    split at h
    · rename_i p hp
      cases h
      intro a ha
      exact List.mem_cons_of_mem '!' ((matchLink_mem hp).2 a ha)
    · cases h
  · cases h

theorem matchFence3_mem {s v : List Char} (h : matchFence3 s = some v) :
    ∀ a ∈ v, a ∈ s := by
  unfold matchFence3 at h
  split at h
  · rename_i t
    split at h
    · rename_i v2 hv
      cases h
      intro a ha
      have h1 : a ∈ t.dropWhile (fun c => c != '`') := by
        rw [hv]
        exact List.mem_cons_of_mem '`' (List.mem_cons_of_mem '`'
          (List.mem_cons_of_mem '`' ha))
      have h2 : a ∈ t := (List.dropWhile_sublist _).subset h1
      exact List.mem_cons_of_mem '`' (List.mem_cons_of_mem '`'
        (List.mem_cons_of_mem '`' h2))
    · cases h
  · cases h

theorem star_not_in_sub3Fuel :
    ∀ (f : Nat) (s : List Char), '*' ∉ s → '*' ∉ sub3Fuel f s := by
  intro f
  induction f with
  | zero => intro s h; exact h
  | succ m ih =>
    intro s h
    match s with
    | [] => simp [sub3Fuel]
    | c :: rest =>
      simp only [sub3Fuel]
      cases hm : matchLink (c :: rest) with
      | some p =>
        intro hmem
        rcases List.mem_append.1 hmem with h' | h'
        · exact h ((matchLink_mem hm).1 '*' h')
        · exact ih p.2 (fun hx => h ((matchLink_mem hm).2 '*' hx)) h'
      | none =>
        intro hmem
        rcases List.mem_cons.1 hmem with h' | h'
        · exact h (h' ▸ List.mem_cons_self c rest)
        · exact ih rest (fun hx => h (List.mem_cons_of_mem _ hx)) h'

theorem star_not_in_sub4Fuel :
    ∀ (f : Nat) (s : List Char), '*' ∉ s → '*' ∉ sub4Fuel f s := by
  intro f
  induction f with
  | zero => intro s h; exact h
  | succ m ih =>
    intro s h
    match s with
    | [] => simp [sub4Fuel]
    | c :: rest =>
      simp only [sub4Fuel]
      cases hm : matchImg (c :: rest) with
      | some v =>
        exact ih v (fun hx => h (matchImg_mem hm '*' hx))
      | none =>
        intro hmem
        rcases List.mem_cons.1 hmem with h' | h'
        · exact h (h' ▸ List.mem_cons_self c rest)
        · exact ih rest (fun hx => h (List.mem_cons_of_mem _ hx)) h'

theorem star_not_in_sub5Fuel :
    ∀ (f : Nat) (s : List Char), '*' ∉ s → '*' ∉ sub5Fuel f s := by
  intro f
  induction f with
  | zero => intro s h; exact h
  | succ m ih =>
    intro s h
    match s with
    | [] => simp [sub5Fuel]
    | c :: rest =>
      simp only [sub5Fuel]
      cases hm : matchFence3 (c :: rest) with
      | some v =>
        exact ih v (fun hx => h (matchFence3_mem hm '*' hx))
      | none =>
        intro hmem
        rcases List.mem_cons.1 hmem with h' | h'
        · exact h (h' ▸ List.mem_cons_self c rest)
        · exact ih rest (fun hx => h (List.mem_cons_of_mem _ hx)) h'

theorem star_of_containsSub_doublestar {t : List Char}
    (h : containsSub (str "**") t = true) : '*' ∈ t := by
  unfold containsSub at h
  cases hf : findSub t (str "**") with
  | none => rw [hf] at h; cases h
  | some j =>
    obtain ⟨-, hm⟩ := findSubAux_some hf
    obtain ⟨u, hu⟩ := leadsWith_ex hm
    have hstar : '*' ∈ t.drop (j - 0) := by
      rw [hu]
      exact List.mem_cons_self _ _
    exact List.drop_subset _ _ hstar

/-- **C7 (corrected).** The TXT output can still contain `##` (hashes not
followed by whitespace are not stripped) and `](` (text outside a complete
`[label](url)` link is kept verbatim). -/
theorem c7_residue_counterexample :
    containsSub (str "##") (mdToTxtText (str "##x")) = true
    ∧ containsSub (str "](") (mdToTxtText (str "](")) = true :=
  ⟨by decide, by decide⟩

/-- **C7 (amended).** For every Markdown input, the plain-text output of
`convert_md_to_txt` contains no `**`: the emphasis substitution removes
every `*`, and the later substitutions only delete text or keep captured
label characters, so no `*` can reappear. -/
theorem c7_no_double_star (md : List Char) :
    containsSub (str "**") (mdToTxtText md) = false := by
  cases hx : containsSub (str "**") (mdToTxtText md) with
  | false => rfl
  | true =>
    have hstar := star_of_containsSub_doublestar hx
    have h2 : '*' ∉ sub2 none (sub1 md) := star_not_in_sub2 _ _
    have h3 : '*' ∉ sub3 (sub2 none (sub1 md)) :=
      star_not_in_sub3Fuel _ _ h2
    have h4 : '*' ∉ sub4 (sub3 (sub2 none (sub1 md))) :=
      star_not_in_sub4Fuel _ _ h3
    have h5 : '*' ∉ sub5 (sub4 (sub3 (sub2 none (sub1 md)))) :=
      star_not_in_sub5Fuel _ _ h4
    exact absurd hstar h5

end QuotGen
